import Mathlib

/-!
Verification of the STranslate.Host lifecycle helper (src/STranslate.Host/src/commands):
a shallow embedding of the update orchestrator (`update.rs`), the scheduled-task
manager (`task.rs`) and the process launcher (`start.rs`), together with theorems
settling the specification's claims about them.

The filesystem is modelled as an association list from resolved paths (lists of
components) to nodes (directory markers or files with byte content).  OS calls
(`taskkill`, `schtasks`, `powershell`, process spawning, zip parsing) are modelled
by oracles carried in a world record, as the spec's §6 collaborator interfaces:
each call synchronously returns a status plus captured error text.
-/

instance {ε α : Type _} [DecidableEq ε] [DecidableEq α] : DecidableEq (Except ε α) :=
  fun x y =>
    match x, y with
    | .ok a, .ok b =>
      if h : a = b then .isTrue (congrArg _ h)
      else .isFalse (fun hh => h (Except.ok.inj hh))
    | .ok _, .error _ => .isFalse (fun hh => Except.noConfusion hh)
    | .error _, .ok _ => .isFalse (fun hh => Except.noConfusion hh)
    | .error a, .error b =>
      if h : a = b then .isTrue (congrArg _ h)
      else .isFalse (fun hh => h (Except.error.inj hh))

namespace STHost

/-! ## Paths and the filesystem model -/

/-- A filesystem path, as a list of components, after OS-level resolution. -/
abbrev FPath := List String

/-- A filesystem node: a directory marker, or a file with its byte content. -/
inductive Node where
  | dir : Node
  | file : List Nat → Node
deriving DecidableEq, Repr

/-- The filesystem: an association list from resolved paths to nodes.
The first binding for a path is the current one. The empty path `[]` is the
filesystem root, which implicitly exists as a directory. -/
abbrev FS := List (FPath × Node)

/-- Look up the node at a path (first binding wins). -/
def lookupFS : FS → FPath → Option Node
  | [], _ => none
  | (k, v) :: rest, p => if k = p then some v else lookupFS rest p

/-- Create or overwrite the node at a path. -/
def setFS (fs : FS) (p : FPath) (v : Node) : FS := (p, v) :: fs

/-- `pathUnder d k` holds when `k` lies at or below the directory path `d`
(`d` is an initial segment of `k`). -/
def pathUnder (d k : FPath) : Prop := k.take d.length = d

instance (d k : FPath) : Decidable (pathUnder d k) :=
  inferInstanceAs (Decidable (k.take d.length = d))

/-- OS path resolution over components already accumulated in `acc`:
empty and `.` components are skipped, `..` pops the last accumulated
component (the parent of the root is the root), anything else is appended.
This is what the OS does to the path string the program hands it. -/
def resolveAux : FPath → List String → FPath
  | acc, [] => acc
  | acc, c :: cs =>
    if c = "" ∨ c = "." then resolveAux acc cs
    else if c = ".." then resolveAux acc.dropLast cs
    else resolveAux (acc ++ [c]) cs

/-- Resolve a component list to the path the OS actually touches. -/
def resolve (p : List String) : FPath := resolveAux [] p

/-- Split a character list at every occurrence of `sep`; `cur` holds the
(reversed) characters of the component being read. -/
def splitChars (sep : Char) : List Char → List Char → List (List Char)
  | cur, [] => [cur.reverse]
  | cur, c :: cs =>
    if c = sep then cur.reverse :: splitChars sep [] cs
    else splitChars sep (c :: cur) cs

/-- Split a path string into components (both separators accepted, as on the
reference OS). -/
def splitPath (s : String) : List String :=
  (splitChars '/' [] (s.data.map (fun c => if c = '\\' then '/' else c))).map String.mk

/-- Whether a string ends with the path-separator character. -/
def endsSlash (s : String) : Bool := s.data.getLast? = some '/'

/-- Syntactic parent of a component list, as `Path::parent` behaves on the
component level: `none` exactly for the empty and root paths. -/
def parentComps (l : List String) : Option (List String) :=
  if l = [] ∨ l = [""] then none else some l.dropLast

/-- The extension of the file name of a path string, as `Path::extension`:
the part of the final component after its last dot; `none` when there is no
dot or the only dot leads a hidden-file name. -/
def extOf (s : String) : Option String :=
  let fname := (splitPath s).getLastD ""
  match splitChars '.' [] fname.data with
  | [] => none
  | [_] => none
  | p :: rest => if p = [] ∧ rest.length = 1 then none else rest.getLast?.map String.mk

/-- `Path::exists`: something (file or directory) is present at the resolved path. -/
def pathExistsB (fs : FS) (s : String) : Bool :=
  (lookupFS fs (resolve (splitPath s))).isSome

/-- The archive's grandparent directory (`zip_path.parent().and_then(parent)`),
resolved; this is the installation root of `unzip_file_to_parent_dir`. -/
def grandParentOf (s : String) : Option FPath :=
  match parentComps (splitPath s) with
  | none => none
  | some p =>
    match parentComps p with
    | none => none
    | some g => some (resolve g)

/-! ## update.rs: errors, pruning, extraction -/

/-- Error outcomes of the update command, one per `return Err`/`?` site of
`update.rs`. -/
inductive UpdateError where
  /-- line 30: the archive path does not exist. -/
  | archiveNotFound
  /-- line 81: the path does not exist or is not a ZIP file. -/
  | invalidInput
  /-- line 90: the grandparent directory cannot be determined. -/
  | noGrandParent
  /-- line 119: `ZipArchive::new` failed on the opened file. -/
  | zipOpenFailed
  /-- an I/O error during pruning or entry extraction. -/
  | ioError
  /-- line 57: the program directory cannot be determined for relaunch. -/
  | noParentDir
  /-- line 65: spawning `STranslate.exe` failed. -/
  | spawnFailed
deriving DecidableEq, Repr

/-- The preservation whitelist of `unzip_file_to_parent_dir` (line 98). -/
def updSkipDirs : List String := ["log", "portable_config", "tmp"]

/-- The name under which `k` is an immediate child of directory `gp`. -/
def childName (gp : FPath) (k : FPath) : Option String :=
  if k.take gp.length = gp then
    match k.drop gp.length with
    | [n] => some n
    | _ => none
  else none

/-- The immediate children of `gp` in the filesystem, with their nodes
(`fs::read_dir` enumeration). -/
def childrenOf (fs : FS) (gp : FPath) : List (String × Node) :=
  fs.filterMap (fun kv => (childName gp kv.1).map (fun n => (n, kv.2)))

/-- Delete one child of `gp`: `remove_dir_all` for a directory (the whole
subtree), `remove_file` for a file (lines 109-113). -/
def removeChild (gp : FPath) (fs : FS) (c : String × Node) : FS :=
  match c.2 with
  | .dir => fs.filter (fun kv => decide (¬ pathUnder (gp ++ [c.1]) kv.1))
  | .file _ => fs.filter (fun kv => decide (kv.1 ≠ gp ++ [c.1]))

/-- Whether a key `k` survives the deletion step for the enumerated child
`c` of `gp`: always when the child is whitelisted; otherwise unless `k` is
in the removed subtree (directory child) or is the removed key (file child). -/
def keepFor (gp : FPath) (c : String × Node) (k : FPath) : Bool :=
  if c.1 ∈ updSkipDirs then true
  else
    match c.2 with
    | .dir => decide (¬ pathUnder (gp ++ [c.1]) k)
    | .file _ => decide (k ≠ gp ++ [c.1])

/-- The pruning pass of `unzip_file_to_parent_dir` (lines 97-116): if `gp` is
readable, delete every immediate child whose name is not whitelisted;
enumeration failure is tolerated silently. -/
def pruneDir (fs : FS) (gp : FPath) : FS :=
  if lookupFS fs gp = some Node.dir ∨ gp = [] then
    (childrenOf fs gp).foldl
      (fun acc c => if c.1 ∈ updSkipDirs then acc else removeChild gp acc c) fs
  else fs

/-- One stored zip entry: its stored name and decompressed byte content. -/
structure ZipEntry where
  name : String
  content : List Nat
deriving DecidableEq, Repr

/-- `fs::create_dir_all`, creating directory nodes along `rest` below the
already-existing directory `done`; fails when a file is in the way. -/
def createDirAllAux : FS → FPath → List String → Option UpdateError × FS
  | fs, _, [] => (none, fs)
  | fs, done, c :: cs =>
    match lookupFS fs (done ++ [c]) with
    | some (.file _) => (some .ioError, fs)
    | some .dir => createDirAllAux fs (done ++ [c]) cs
    | none => createDirAllAux (setFS fs (done ++ [c]) Node.dir) (done ++ [c]) cs

/-- `fs::create_dir_all` from the filesystem root. -/
def createDirAll (fs : FS) (p : FPath) : Option UpdateError × FS :=
  createDirAllAux fs [] p

/-- `fs::File::create` followed by writing `content`: fails when the path is a
directory or its parent directory is missing; otherwise creates or overwrites
the file. -/
def fileCreate (fs : FS) (p : FPath) (content : List Nat) : Option UpdateError × FS :=
  if lookupFS fs p = some Node.dir then (some .ioError, fs)
  else if p = [] then (some .ioError, fs)
  else if p.dropLast = [] ∨ lookupFS fs p.dropLast = some Node.dir then
    (none, setFS fs p (Node.file content))
  else (some .ioError, fs)

/-- The path at which an entry is materialized: `grand_parent_dir.join(file.name())`
(line 123), as resolved by the OS. The code performs no sanitization of the
stored name. -/
def entryTarget (root : FPath) (e : ZipEntry) : FPath :=
  resolve (root ++ splitPath e.name)

/-- The entry's syntactic parent path (`outpath.parent()`, line 128), as
resolved by the OS. -/
def entryPar (root : FPath) (e : ZipEntry) : FPath :=
  resolve ((root ++ splitPath e.name).dropLast)

/-- Extraction of a single entry (lines 121-135): a name ending in `/` is a
directory marker; otherwise the parent directory is created when missing
(`!p.exists()` check at line 129) and the file is created/overwritten with
the entry's content. -/
def extractEntry (root : FPath) (fs : FS) (e : ZipEntry) : Option UpdateError × FS :=
  if endsSlash e.name then
    createDirAll fs (entryTarget root e)
  else if entryPar root e = [] ∨ (lookupFS fs (entryPar root e)).isSome then
    fileCreate fs (entryTarget root e) e.content
  else
    match createDirAll fs (entryPar root e) with
    | (some er, fs') => (some er, fs')
    | (none, fs') => fileCreate fs' (entryTarget root e) e.content

/-- Extraction of all entries in stored order; the first failure aborts,
leaving already-written files in place. -/
def extractAll (root : FPath) : FS → List ZipEntry → Option UpdateError × FS
  | fs, [] => (none, fs)
  | fs, e :: es =>
    match extractEntry root fs e with
    | (some er, fs') => (some er, fs')
    | (none, fs') => extractAll root fs' es

/-- All nonempty initial segments of `t` are directories in `g` (the state a
successful `create_dir_all t` leaves behind and re-encounters). -/
def dirReady (g : FS) (t : FPath) : Prop :=
  ∀ i, i < t.length → lookupFS g (t.take (i + 1)) = some Node.dir

/-- The state a successful file-entry extraction (parent `par`, target `t`)
leaves behind and re-encounters: the parent probe finds something, the
target holds a file, and the target's parent directory is in place. -/
def fileReady (g : FS) (par t : FPath) : Prop :=
  (par = [] ∨ (lookupFS g par).isSome = true)
    ∧ (∃ c, lookupFS g t = some (Node.file c))
    ∧ t ≠ []
    ∧ (t.dropLast = [] ∨ lookupFS g t.dropLast = some Node.dir)

/-- The state a successful extraction of entry `e` leaves behind. -/
def entryReady (root : FPath) (g : FS) (e : ZipEntry) : Prop :=
  if endsSlash e.name = true then dirReady g (entryTarget root e)
  else fileReady g (entryPar root e) (entryTarget root e)

/-- Invariant of re-running an extraction whose first pass ended in `g`:
with entries `es` still to be replayed, the replay state `h` agrees with `g`
everywhere except possibly at the file targets of remaining entries, where
both hold files. -/
def replayInv (root : FPath) (g : FS) (es : List ZipEntry) (h : FS) : Prop :=
  ∀ q, lookupFS h q = lookupFS g q
    ∨ ((∃ e ∈ es, endsSlash e.name = false ∧ entryTarget root e = q)
        ∧ (∃ c, lookupFS h q = some (Node.file c))
        ∧ (∃ c, lookupFS g q = some (Node.file c)))

/-- `unzip_file_to_parent_dir` (lines 77-139): validate extension and
existence, determine the grandparent (installation root), optionally prune,
open the archive (its parsed entry list is the `zipData` oracle; `none` models
a `ZipArchive::new` failure) and extract every entry. Returns the error, if
any, together with the filesystem as left behind. -/
def unzip_file_to_parent_dir (zipPath : String) (clearDir : Bool)
    (zipData : Option (List ZipEntry)) (fs : FS) : Option UpdateError × FS :=
  if ¬ pathExistsB fs zipPath ∨ (extOf zipPath).getD "" ≠ "zip" then
    (some .invalidInput, fs)
  else
    match grandParentOf zipPath with
    | none => (some .noGrandParent, fs)
    | some gp =>
      let fs1 := if clearDir then pruneDir fs gp else fs
      match zipData with
      | none => (some .zipOpenFailed, fs1)
      | some entries => extractAll gp fs1 entries

/-! ## update.rs: the orchestrator -/

/-- The parameters of the `update` sub-command. -/
structure UpdateRequest where
  archive : String
  waitTime : Nat
  clean : Bool
  processName : Option String
  autoStart : Bool

/-- Observable side effects of an update run, in order. -/
inductive Event where
  /-- `taskkill /F /IM name` was invoked. -/
  | kill : String → Event
  /-- the non-success of `taskkill` was reported as a warning only. -/
  | warnKillFailed : String → Event
  /-- `thread::sleep` for the given number of seconds. -/
  | sleep : Nat → Event
  /-- spawning the executable at the given path was attempted. -/
  | spawn : FPath → Event
deriving DecidableEq, Repr

/-- The world an update runs against: the filesystem, the result of parsing
the archive file as a zip, and oracles for the outcome of `taskkill` and of
spawning an executable. -/
structure World where
  fs : FS
  zipData : Option (List ZipEntry)
  killOk : String → Bool
  spawnOk : FPath → Bool

/-- `close_process` (lines 141-163): invoke `taskkill`; a non-success status
only prints a warning — the function succeeds either way. -/
def close_process (w : World) (p : String) : List Event :=
  if w.killOk p then [Event.kill p] else [Event.kill p, Event.warnKillFailed p]

/-- The outcome of an update run: the command's result, the filesystem left
behind, and the side effects performed. -/
structure UpdateOutcome where
  result : Except UpdateError Unit
  fs : FS
  events : List Event

/-- Stages 4-5 of `handle_update_command` (lines 47-70): extraction and the
optional relaunch of `STranslate.exe` from the installation root (spawn
failure propagates via `?` at line 65). These stages read only the archive
path and the two flags. Returns the result, the filesystem left behind, and
the spawn side effects. -/
def update_extract_and_relaunch (archive : String) (clean autoStart : Bool)
    (w : World) : Except UpdateError Unit × FS × List Event :=
  match unzip_file_to_parent_dir archive clean w.zipData w.fs with
  | (some er, fs') => (.error er, fs', [])
  | (none, fs') =>
    if autoStart then
      match grandParentOf archive with
      | none => (.error .noParentDir, fs', [])
      | some gp =>
        let exe := gp ++ ["STranslate.exe"]
        if (lookupFS fs' exe).isSome then
          if w.spawnOk exe then (.ok (), fs', [Event.spawn exe])
          else (.error .spawnFailed, fs', [Event.spawn exe])
        else (.ok (), fs', [])
    else (.ok (), fs', [])

/-- `handle_update_command` (lines 11-74): validate the archive path, close
the named process, wait, then extract and optionally relaunch. -/
def handle_update_command (req : UpdateRequest) (w : World) : UpdateOutcome :=
  if ¬ pathExistsB w.fs req.archive then
    ⟨.error .archiveNotFound, w.fs, []⟩
  else
    let ev1 : List Event :=
      match req.processName with
      | some p => close_process w p
      | none => []
    let ev2 : List Event := if req.waitTime > 0 then [Event.sleep req.waitTime] else []
    let t := update_extract_and_relaunch req.archive req.clean req.autoStart w
    ⟨t.1, t.2.1, ev1 ++ ev2 ++ t.2.2⟩

/-! ## task.rs: scheduled-task creation -/

/-- Error outcomes of `create_task`. -/
inductive TaskError where
  /-- line 108: the program file does not exist. -/
  | programNotFound (program : String)
  /-- line 116: the program's directory cannot be determined. -/
  | noProgramDir
  /-- line 158: `schtasks /Create` failed, with its error text. -/
  | createFailed (stderr : String)
deriving Repr

/-- Observable side effects of a `create_task` run, in order. -/
inductive TaskEvent where
  /-- `schtasks /Query /TN name` was invoked. -/
  | queriedTask (name : String)
  /-- the task-descriptor XML document was generated. -/
  | generatedXml (xml : String)
  /-- `fs::write` created the file at the given path. -/
  | wroteFile (path : String)
  /-- `schtasks /Create /XML temp /TN name /F` was invoked. -/
  | registerCall (name : String)
  /-- `fs::remove_file` deleted the file at the given path. -/
  | removedFile (path : String)
deriving DecidableEq, Repr

/-- The OS state a task operation reads and mutates: the scheduler's
registrations (task names) and a flat set of existing file paths. -/
structure SchedState where
  tasks : List String
  files : List String
deriving DecidableEq, Repr

/-- The world a task operation runs against: the OS state plus oracles for
the outcome of `schtasks /Create`, the `whoami` SID lookup, and the current
timestamp. -/
structure TaskWorld where
  st : SchedState
  registerOk : Bool
  registerErr : String
  sidLookup : Option String
  now : String

/-- `get_current_user_sid` (lines 281-295): the `whoami` lookup oracle. -/
def get_current_user_sid (w : TaskWorld) : Option String := w.sidLookup

/-- Run-level mapping (lines 223-227). -/
def runLevelValue (runLevel : String) : String :=
  if runLevel = "highest" then "HighestAvailable" else "LeastPrivilege"

/-- `generate_task_xml` (lines 215-278): the task-descriptor document
embedding timestamp, description, task name, user SID (with the built-in
administrators fallback), run level, program path and working directory.
The fixed `Triggers`/`Settings` boilerplate between the variable fields is
elided. -/
def generate_task_xml (w : TaskWorld)
    (taskName program workingDir description runLevel : String) : String :=
  "<?xml version=\"1.0\" encoding=\"UTF-16\"?>\n<Task version=\"1.2\">\n<Date>"
    ++ w.now
    ++ "</Date>\n<Author>stranslate - zggsong</Author>\n<Description>"
    ++ description
    ++ "</Description>\n<URI>\\"
    ++ taskName
    ++ "</URI>\n<UserId>"
    ++ ((get_current_user_sid w).getD "S-1-5-32-544")
    ++ "</UserId>\n<RunLevel>"
    ++ runLevelValue runLevel
    ++ "</RunLevel>\n<Command>"
    ++ program
    ++ "</Command>\n<WorkingDirectory>"
    ++ workingDir
    ++ "</WorkingDirectory>\n</Task>"

/-- The uniquely-named temporary descriptor file for a task (line 132). -/
def tempXmlPath (taskName : String) : String := "temp_task_" ++ taskName ++ ".xml"

/-- Syntactic parent of a path string, as `Path::new(s).parent()` renders it. -/
def strParent (s : String) : Option String :=
  (parentComps (splitPath s)).map (fun l => String.intercalate "/" l)

/-- The outcome of a `create_task` run. -/
structure TaskOutcome where
  result : Except TaskError Unit
  st : SchedState
  events : List TaskEvent

/-- `create_task` (lines 89-162): require the program to exist, compute the
working directory, query the existing registration (no-op success when it
exists and `force` is unset), otherwise generate the descriptor, write it to
the temporary file, register via `schtasks` and delete the temporary file
regardless of the registration outcome. -/
def create_task (w : TaskWorld) (taskName program : String) (workingDir : Option String)
    (description runLevel : String) (force : Bool) : TaskOutcome :=
  if program ∉ w.st.files then
    ⟨.error (.programNotFound program), w.st, []⟩
  else
    match workingDir.orElse (fun _ => strParent program) with
    | none => ⟨.error .noProgramDir, w.st, []⟩
    | some workDir =>
      if taskName ∈ w.st.tasks ∧ ¬ force then
        ⟨.ok (), w.st, [.queriedTask taskName]⟩
      else
        let xml := generate_task_xml w taskName program workDir description runLevel
        let temp := tempXmlPath taskName
        let files1 := temp :: w.st.files
        let tasks2 :=
          if w.registerOk then
            if taskName ∈ w.st.tasks then w.st.tasks else taskName :: w.st.tasks
          else w.st.tasks
        let files3 := files1.filter (fun f => decide (f ≠ temp))
        let evs : List TaskEvent :=
          [.queriedTask taskName, .generatedXml xml, .wroteFile temp,
           .registerCall taskName, .removedFile temp]
        if w.registerOk then ⟨.ok (), ⟨tasks2, files3⟩, evs⟩
        else ⟨.error (.createFailed w.registerErr), ⟨tasks2, files3⟩, evs⟩

/-! ## start.rs: the process launcher -/

/-- The three launch modes of the `start` sub-command. -/
inductive StartMode where
  | direct | elevated | task

/-- Error outcomes of the `start` sub-command. -/
inductive StartError where
  /-- line 159: `schtasks /Run` failed, with its error text. -/
  | startTaskFailed (stderr : String)
  /-- line 140: spawning the elevated process failed. -/
  | spawnFailed
deriving Repr

/-- Observable side effects of a `start` run, in order. -/
inductive StartEvent where
  /-- `thread::sleep` for the given number of seconds. -/
  | sleep (secs : Nat)
  /-- `powershell Start-Process target` was invoked. -/
  | psStart (target : String)
  /-- the non-success of the direct start was reported as a warning only. -/
  | warnStartFailed (target : String)
  /-- `powershell Start-Process target -Verb RunAs` was spawned. -/
  | psStartElevated (target : String)
  /-- `schtasks /Run /TN name` was invoked. -/
  | schtasksRun (name : String)
deriving DecidableEq, Repr

/-- The world a `start` runs against: oracles for the status of the direct
`powershell` invocation, the elevated spawn, and `schtasks /Run`, plus the
latter's error text. The argument list only alters the generated powershell
command string and is not modelled. -/
structure StartWorld where
  directOk : Bool
  elevatedSpawnOk : Bool
  runTaskOk : Bool
  schedErr : String

/-- `start_direct_process` (lines 62-103): a non-success status of the
started process only prints a warning — the function succeeds either way. -/
def start_direct_process (w : StartWorld) (target : String) :
    Except StartError Unit × List StartEvent :=
  if w.directOk then (.ok (), [.psStart target])
  else (.ok (), [.psStart target, .warnStartFailed target])

/-- `start_elevated_process` (lines 105-144): the detached spawn's failure
propagates via `?`. -/
def start_elevated_process (w : StartWorld) (target : String) :
    Except StartError Unit × List StartEvent :=
  if w.elevatedSpawnOk then (.ok (), [.psStartElevated target])
  else (.error .spawnFailed, [.psStartElevated target])

/-- `start_task_scheduler` (lines 146-168): a non-success status of
`schtasks /Run` is fatal and surfaces the OS's error text. -/
def start_task_scheduler (w : StartWorld) (taskName : String) :
    Except StartError Unit × List StartEvent :=
  if w.runTaskOk then (.ok (), [.schtasksRun taskName])
  else (.error (.startTaskFailed w.schedErr), [.schtasksRun taskName])

/-- `handle_start_command` (lines 17-60): optional pre-delay, then dispatch
on the launch mode. -/
def handle_start_command (w : StartWorld) (mode : StartMode) (target : String)
    (delay : Nat) : Except StartError Unit × List StartEvent :=
  let ev0 : List StartEvent := if delay > 0 then [.sleep delay] else []
  match mode with
  | .direct => let r := start_direct_process w target; (r.1, ev0 ++ r.2)
  | .elevated => let r := start_elevated_process w target; (r.1, ev0 ++ r.2)
  | .task => let r := start_task_scheduler w target; (r.1, ev0 ++ r.2)

/-! ## Concrete fixtures -/

/-- A well-formed installation at `C:/app`, with the update archive under
`C:/app/update` and the installed executable present. -/
def baseFS : FS :=
  [(["C:"], .dir), (["C:", "app"], .dir), (["C:", "app", "update"], .dir),
   (["C:", "app", "update", "pkg.zip"], .file [9]),
   (["C:", "app", "STranslate.exe"], .file [1])]

/-- An archive holding a single traversal entry. -/
def c1Zip : Option (List ZipEntry) := some [⟨"../evil.txt", [1, 2, 3]⟩]

/-- An installation where a directory (not a file) sits at the archive path. -/
def c2DirFS : FS :=
  [(["C:"], .dir), (["C:", "app"], .dir), (["C:", "app", "update"], .dir),
   (["C:", "app", "update", "pkg.zip"], .dir)]

/-- An update request against `c2DirFS` that names a process and a wait. -/
def c2Req : UpdateRequest := ⟨"C:/app/update/pkg.zip", 3, false, some "STranslate.exe", false⟩

/-- The world for the C2 counterexample. -/
def c2World : World := ⟨c2DirFS, none, fun _ => true, fun _ => true⟩

/-- An update request whose archive path names nothing at all. -/
def c2wReq : UpdateRequest := ⟨"C:/app/update/none.zip", 3, false, some "STranslate.exe", false⟩

/-- The world for the C2 witness. -/
def c2wWorld : World := ⟨baseFS, none, fun _ => true, fun _ => true⟩

/-- An update request with relaunch enabled. -/
def c4Req : UpdateRequest := ⟨"C:/app/update/pkg.zip", 0, false, none, true⟩

/-- A world where the archive parses as an empty zip and spawning fails. -/
def c4World : World := ⟨baseFS, some [], fun _ => true, fun _ => false⟩

/-- An update request naming a process to stop. -/
def c5Req : UpdateRequest := ⟨"C:/app/update/pkg.zip", 1, false, some "STranslate.exe", false⟩

/-- A world where `taskkill` reports failure. -/
def c5World : World := ⟨baseFS, some [], fun _ => false, fun _ => true⟩

/-- A scheduler world where task `T1` is already registered and the target
program exists. -/
def c6World : TaskWorld :=
  ⟨⟨["T1"], ["C:\\x\\a.exe"]⟩, true, "", some "S-1-5-21-1", "2026-01-01T00:00:00"⟩

/-- A scheduler world with no registration for `T1`. -/
def c8World : TaskWorld :=
  ⟨⟨[], ["C:\\x\\a.exe"]⟩, true, "", some "S-1-5-21-1", "2026-01-01T00:00:00"⟩

/-- A start world where both the direct start and the scheduler run fail. -/
def c9World : StartWorld := ⟨false, true, false, "ERROR: The system cannot find the task."⟩

/-- An installation root holding the three whitelisted directories (with
contents), a non-whitelisted directory with contents, and a loose file. -/
def c3FS : FS :=
  [(["C:"], .dir), (["C:", "app"], .dir),
   (["C:", "app", "log"], .dir), (["C:", "app", "log", "a.txt"], .file [1]),
   (["C:", "app", "portable_config"], .dir), (["C:", "app", "tmp"], .dir),
   (["C:", "app", "oldstuff"], .dir), (["C:", "app", "oldstuff", "x.bin"], .file [2]),
   (["C:", "app", "note.txt"], .file [3])]

/-- A small well-formed archive: a directory marker, a file below it, and a
top-level file. -/
def c7Zip : Option (List ZipEntry) :=
  some [⟨"bin/", []⟩, ⟨"bin/app.exe", [7]⟩, ⟨"readme.txt", [1, 2]⟩]

/-- An installation with a non-zip archive present. -/
def c10FS : FS := (["C:", "app", "update", "pkg.tar"], .file [9]) :: baseFS

/-- An update request naming the non-zip archive, with prune requested. -/
def c10Req : UpdateRequest := ⟨"C:/app/update/pkg.tar", 2, true, some "STranslate.exe", false⟩

/-- The world for the C10 witness. -/
def c10World : World := ⟨c10FS, some [], fun _ => true, fun _ => true⟩

/-! ## Claim theorems: C1, C2, C4, C5, C6, C8, C9, C10 -/

/-- C1: the extractor performs no traversal sanitization. In an archive at
`C:/app/update/pkg.zip` (installation root `C:/app`), an entry stored as
`../evil.txt` is extracted successfully and materialized at `C:/evil.txt`,
which does not lie under the installation root — the write lands outside
`installRoot`, contradicting the claim's required reject-or-sanitize
behavior. -/
theorem c1_traversal_escapes_root :
    grandParentOf "C:/app/update/pkg.zip" = some ["C:", "app"]
      ∧ (unzip_file_to_parent_dir "C:/app/update/pkg.zip" false c1Zip baseFS).1 = none
      ∧ lookupFS (unzip_file_to_parent_dir "C:/app/update/pkg.zip" false c1Zip baseFS).2
          ["C:", "evil.txt"] = some (Node.file [1, 2, 3])
      ∧ ¬ pathUnder ["C:", "app"] ["C:", "evil.txt"] :=
  ⟨rfl, rfl, rfl, by decide⟩

/-- C2 counterexample: the archive path of `c2Req` names an existing
directory — hence not an existing file — yet the update does not fail with
the NotFound error: it terminates the named process and sleeps first. -/
theorem c2_counterexample :
    lookupFS c2World.fs (resolve (splitPath c2Req.archive)) = some Node.dir
      ∧ (handle_update_command c2Req c2World).events
          = [Event.kill "STranslate.exe", Event.sleep 3]
      ∧ (handle_update_command c2Req c2World).result ≠ .error .archiveNotFound :=
  ⟨rfl, rfl, by decide⟩

/-- C2 (amended): for every update request whose archive path names nothing
on disk (neither file nor directory), the command fails with the NotFound
error, the filesystem is untouched and no process kill or sleep occurs. -/
theorem c2_missing_archive_fails_first (req : UpdateRequest) (w : World)
    (h : pathExistsB w.fs req.archive = false) :
    handle_update_command req w = ⟨.error .archiveNotFound, w.fs, []⟩ := by
  unfold handle_update_command
  simp [h]

/-- C2 witness: the amended theorem applied to a request whose archive path
names nothing. -/
theorem c2_witness :
    pathExistsB c2wWorld.fs c2wReq.archive = false
      ∧ handle_update_command c2wReq c2wWorld = ⟨.error .archiveNotFound, c2wWorld.fs, []⟩ :=
  ⟨by decide, c2_missing_archive_fails_first c2wReq c2wWorld (by decide)⟩

/-- C4 counterexample: extraction of `c4Req` succeeds, relaunch is
requested, the installed executable exists, spawning it fails — and the
update is reported as failed, contradicting the claim that relaunch failure
never turns the update into a failure. -/
theorem c4_counterexample :
    (unzip_file_to_parent_dir c4Req.archive c4Req.clean c4World.zipData c4World.fs).1 = none
      ∧ c4Req.autoStart = true
      ∧ (lookupFS c4World.fs ["C:", "app", "STranslate.exe"]).isSome = true
      ∧ (handle_update_command c4Req c4World).result = .error .spawnFailed :=
  ⟨rfl, rfl, rfl, rfl⟩

/-- C4 (amended): with the relaunch flag set and extraction succeeded, a
missing `STranslate.exe` is a soft no-op (the update succeeds), but when the
executable exists and spawning it fails, the spawn error propagates and the
whole update is reported as failed. -/
theorem c4_relaunch_semantics (req : UpdateRequest) (w : World) (gp : FPath)
    (ha : req.autoStart = true)
    (hok : (unzip_file_to_parent_dir req.archive req.clean w.zipData w.fs).1 = none)
    (hgp : grandParentOf req.archive = some gp)
    (hex : pathExistsB w.fs req.archive = true) :
    (lookupFS (unzip_file_to_parent_dir req.archive req.clean w.zipData w.fs).2
          (gp ++ ["STranslate.exe"]) = none
        → (handle_update_command req w).result = .ok ())
      ∧ ((lookupFS (unzip_file_to_parent_dir req.archive req.clean w.zipData w.fs).2
          (gp ++ ["STranslate.exe"])).isSome = true
        → w.spawnOk (gp ++ ["STranslate.exe"]) = false
        → (handle_update_command req w).result = .error .spawnFailed) := by
  have hu : unzip_file_to_parent_dir req.archive req.clean w.zipData w.fs
      = (none, (unzip_file_to_parent_dir req.archive req.clean w.zipData w.fs).2) := by
    rw [← hok]
  unfold handle_update_command update_extract_and_relaunch
  rw [hu]
  simp [hex, ha, hgp]
  constructor
  · intro hnone
    simp [hnone]
  · intro hsome hspawn
    simp [hsome, hspawn]

/-- C4 witness: the amended theorem applied to `c4Req`/`c4World`, where the
executable exists and spawning fails. -/
theorem c4_witness :
    (lookupFS (unzip_file_to_parent_dir c4Req.archive c4Req.clean c4World.zipData c4World.fs).2
          (["C:", "app"] ++ ["STranslate.exe"]) = none
        → (handle_update_command c4Req c4World).result = .ok ())
      ∧ ((lookupFS (unzip_file_to_parent_dir c4Req.archive c4Req.clean c4World.zipData c4World.fs).2
          (["C:", "app"] ++ ["STranslate.exe"])).isSome = true
        → c4World.spawnOk (["C:", "app"] ++ ["STranslate.exe"]) = false
        → (handle_update_command c4Req c4World).result = .error .spawnFailed) :=
  c4_relaunch_semantics c4Req c4World ["C:", "app"] rfl rfl rfl (by decide)

/-- C5: when `taskkill` for the named process reports failure, the update is
not aborted — its result and final filesystem are those of the same request
with no process to stop, and only the kill attempt and its warning are
prepended to the side effects. -/
theorem c5_kill_failure_not_fatal (req : UpdateRequest) (w : World) (p : String)
    (hp : req.processName = some p) (hk : w.killOk p = false)
    (hex : pathExistsB w.fs req.archive = true) :
    (handle_update_command req w).result
        = (handle_update_command { req with processName := none } w).result
      ∧ (handle_update_command req w).fs
        = (handle_update_command { req with processName := none } w).fs
      ∧ (handle_update_command req w).events
        = Event.kill p :: Event.warnKillFailed p
            :: (handle_update_command { req with processName := none } w).events := by
  unfold handle_update_command close_process
  simp [hp, hk, hex]

/-- C5 witness: the theorem applied to a request whose `taskkill` fails. -/
theorem c5_witness :
    (handle_update_command c5Req c5World).result
        = (handle_update_command { c5Req with processName := none } c5World).result
      ∧ (handle_update_command c5Req c5World).fs
        = (handle_update_command { c5Req with processName := none } c5World).fs
      ∧ (handle_update_command c5Req c5World).events
        = Event.kill "STranslate.exe" :: Event.warnKillFailed "STranslate.exe"
            :: (handle_update_command { c5Req with processName := none } c5World).events :=
  c5_kill_failure_not_fatal c5Req c5World "STranslate.exe" rfl rfl (by decide)

/-- C6: when a registration named `tn` already exists and `force` is false,
`create_task` is a no-op success: it returns Ok, leaves the scheduler state
and filesystem exactly unchanged, and its only side effect is the existence
query — no descriptor is generated, no file written, no registration call
made. -/
theorem c6_create_existing_noop (w : TaskWorld) (tn prog : String) (wdO : Option String)
    (desc rl wd : String)
    (hprog : prog ∈ w.st.files)
    (hwd : wdO.orElse (fun _ => strParent prog) = some wd)
    (hex : tn ∈ w.st.tasks) :
    create_task w tn prog wdO desc rl false = ⟨.ok (), w.st, [TaskEvent.queriedTask tn]⟩ := by
  unfold create_task
  simp [hprog, hwd, hex]

/-- C6 witness: creating `T1` when it is already registered. -/
theorem c6_witness :
    "C:\\x\\a.exe" ∈ c6World.st.files ∧ "T1" ∈ c6World.st.tasks
      ∧ create_task c6World "T1" "C:\\x\\a.exe" none "d" "highest" false
          = ⟨.ok (), c6World.st, [TaskEvent.queriedTask "T1"]⟩ :=
  ⟨by decide, by decide,
    c6_create_existing_noop c6World "T1" "C:\\x\\a.exe" none "d" "highest" "C:/x"
      (by decide) (by decide) (by decide)⟩

/-- C8: whenever `create_task` proceeds to registration (no existing task,
or `force` set), the descriptor is written to the task-specific temporary
file, the registration call follows, and the temporary file is deleted
afterwards whatever the registration outcome: it is absent from the final
filesystem, which keeps exactly the other files. -/
theorem c8_temp_file_lifecycle (w : TaskWorld) (tn prog : String) (wdO : Option String)
    (desc rl : String) (force : Bool) (wd : String)
    (hprog : prog ∈ w.st.files)
    (hwd : wdO.orElse (fun _ => strParent prog) = some wd)
    (hproceed : tn ∉ w.st.tasks ∨ force = true) :
    (create_task w tn prog wdO desc rl force).events
        = [TaskEvent.queriedTask tn,
           TaskEvent.generatedXml (generate_task_xml w tn prog wd desc rl),
           TaskEvent.wroteFile (tempXmlPath tn),
           TaskEvent.registerCall tn,
           TaskEvent.removedFile (tempXmlPath tn)]
      ∧ tempXmlPath tn ∉ (create_task w tn prog wdO desc rl force).st.files
      ∧ (create_task w tn prog wdO desc rl force).st.files
          = w.st.files.filter (fun f => decide (f ≠ tempXmlPath tn)) := by
  have hcond : ¬ (tn ∈ w.st.tasks ∧ ¬ force = true) := by
    rcases hproceed with h | h
    · exact fun hc => h hc.1
    · exact fun hc => hc.2 h
  unfold create_task
  rw [if_neg (by simpa using hprog), hwd]
  simp only [Option.some.injEq]
  rw [if_neg hcond]
  cases hr : w.registerOk <;>
    simp [List.mem_filter, List.filter]

/-- C8 witness: creating an unregistered task `T1`, with registration
succeeding. -/
theorem c8_witness :
    (create_task c8World "T1" "C:\\x\\a.exe" none "d" "highest" false).events
        = [TaskEvent.queriedTask "T1",
           TaskEvent.generatedXml (generate_task_xml c8World "T1" "C:\\x\\a.exe" "C:/x" "d" "highest"),
           TaskEvent.wroteFile (tempXmlPath "T1"),
           TaskEvent.registerCall "T1",
           TaskEvent.removedFile (tempXmlPath "T1")]
      ∧ tempXmlPath "T1" ∉ (create_task c8World "T1" "C:\\x\\a.exe" none "d" "highest" false).st.files
      ∧ (create_task c8World "T1" "C:\\x\\a.exe" none "d" "highest" false).st.files
          = c8World.st.files.filter (fun f => decide (f ≠ tempXmlPath "T1")) :=
  c8_temp_file_lifecycle c8World "T1" "C:\\x\\a.exe" none "d" "highest" false "C:/x"
    (by decide) (by decide) (Or.inl (by decide))

/-- C9: in Task mode a failing `schtasks /Run` is fatal and surfaces the
OS's error text, while in Direct mode a failing process start leaves the
command successful, the failure being reported as a warning side effect
only. -/
theorem c9_scheduler_fatal_direct_soft (w : StartWorld) (tn tgt : String) (d e : Nat)
    (hrun : w.runTaskOk = false) (hdir : w.directOk = false) :
    (handle_start_command w .task tn d).1 = .error (.startTaskFailed w.schedErr)
      ∧ (handle_start_command w .direct tgt e).1 = .ok ()
      ∧ StartEvent.warnStartFailed tgt ∈ (handle_start_command w .direct tgt e).2 := by
  unfold handle_start_command start_task_scheduler start_direct_process
  simp [hrun, hdir]

/-- C9 witness: a world where both the scheduler run and the direct start
fail. -/
theorem c9_witness :
    (handle_start_command c9World .task "T1" 0).1
        = .error (.startTaskFailed c9World.schedErr)
      ∧ (handle_start_command c9World .direct "C:\\x\\a.exe" 0).1 = .ok ()
      ∧ StartEvent.warnStartFailed "C:\\x\\a.exe"
          ∈ (handle_start_command c9World .direct "C:\\x\\a.exe" 0).2 :=
  c9_scheduler_fatal_direct_soft c9World "T1" "C:\\x\\a.exe" 0 0 rfl rfl

/-- C10: when the archive path exists but its extension is not `zip`, the
archive-type check only fires inside the extraction stage: the named process
is still killed and the wait still happens, then the command fails with the
InvalidInput error and the filesystem is left exactly as it was. -/
theorem c10_wrong_extension_late_failure (req : UpdateRequest) (w : World) (p : String)
    (hex : pathExistsB w.fs req.archive = true)
    (hzip : (extOf req.archive).getD "" ≠ "zip")
    (hp : req.processName = some p) :
    (handle_update_command req w).result = .error .invalidInput
      ∧ (handle_update_command req w).fs = w.fs
      ∧ (handle_update_command req w).events
          = close_process w p ++ (if req.waitTime > 0 then [Event.sleep req.waitTime] else []) := by
  unfold handle_update_command update_extract_and_relaunch unzip_file_to_parent_dir
  simp [hex, hp, hzip]

/-- C10 witness: a `pkg.tar` archive with a process to stop, a wait and the
prune flag set — the run kills, sleeps, fails with InvalidInput and leaves
the filesystem untouched. -/
theorem c10_witness :
    (handle_update_command c10Req c10World).result = .error .invalidInput
      ∧ (handle_update_command c10Req c10World).fs = c10World.fs
      ∧ (handle_update_command c10Req c10World).events
          = close_process c10World "STranslate.exe"
              ++ (if c10Req.waitTime > 0 then [Event.sleep c10Req.waitTime] else []) :=
  c10_wrong_extension_late_failure c10Req c10World "STranslate.exe"
    (by decide) (by decide) rfl

/-! ## Pruning: C3 -/

/-- Looking a key up after a key-based filter. -/
theorem lookupFS_filter (fs : FS) (p : FPath → Bool) (k : FPath) :
    lookupFS (fs.filter (fun kv => p kv.1)) k
      = if p k = true then lookupFS fs k else none := by
  induction fs with
  | nil => cases hp : p k <;> simp [lookupFS, hp]
  | cons kv rest ih =>
    by_cases hk : kv.1 = k
    · subst hk
      cases hp : p kv.1 <;> simp [List.filter_cons, lookupFS, hp, ih]
    · cases hp : p kv.1 <;> simp [List.filter_cons, lookupFS, hp, hk, ih]

/-- Looking a key up after the whole deletion pass over the enumerated
children: the key keeps its binding exactly when every deletion step keeps
it. -/
theorem prune_foldl_lookup (gp : FPath) (cs : List (String × Node)) (fs : FS) (k : FPath) :
    lookupFS
        (cs.foldl (fun acc c => if c.1 ∈ updSkipDirs then acc else removeChild gp acc c) fs) k
      = if ∀ c ∈ cs, keepFor gp c k = true then lookupFS fs k else none := by
  induction cs generalizing fs with
  | nil => simp
  | cons c cs' ih =>
    rw [List.foldl_cons, ih]
    have hstep : lookupFS (if c.1 ∈ updSkipDirs then fs else removeChild gp fs c) k
        = if keepFor gp c k = true then lookupFS fs k else none := by
      by_cases hskip : c.1 ∈ updSkipDirs
      · simp [hskip, keepFor]
      · rcases c with ⟨n, v⟩
        cases v with
        | dir =>
          simp only [hskip, if_false, removeChild, keepFor]
          exact lookupFS_filter fs (fun x => decide (¬ pathUnder (gp ++ [n]) x)) k
        | file b =>
          simp only [hskip, if_false, removeChild, keepFor]
          exact lookupFS_filter fs (fun x => decide (x ≠ gp ++ [n])) k
    rw [hstep]
    by_cases hcs : ∀ c' ∈ cs', keepFor gp c' k = true
    · by_cases hc : keepFor gp c k = true
      · have hall : ∀ c' ∈ c :: cs', keepFor gp c' k = true := by
          intro c' hc'
          rcases List.mem_cons.mp hc' with h | h
          · rw [h]; exact hc
          · exact hcs c' h
        rw [if_pos hcs, if_pos hc, if_pos hall]
      · rw [if_pos hcs, if_neg hc,
          if_neg (fun hall => hc (hall c (List.mem_cons_self c cs')))]
    · rw [if_neg hcs,
        if_neg (fun hall => hcs (fun c' hc' => hall c' (List.mem_cons_of_mem c hc')))]

/-- Two immediate children of the same directory prefixing the same key
coincide. -/
theorem pathUnder_child_unique {gp : FPath} {a b : String} {k : FPath}
    (ha : pathUnder (gp ++ [a]) k) (hb : pathUnder (gp ++ [b]) k) : a = b := by
  unfold pathUnder at ha hb
  simp only [List.length_append, List.length_singleton] at ha hb
  have h : gp ++ [a] = gp ++ [b] := by rw [← ha, ← hb]
  simpa using h

/-- A key below an immediate child of `gp` is below `gp`. -/
theorem pathUnder_of_child {gp : FPath} {n : String} {k : FPath}
    (h : pathUnder (gp ++ [n]) k) : pathUnder gp k := by
  unfold pathUnder at h ⊢
  have h1 : k.take gp.length = (k.take (gp ++ [n]).length).take gp.length := by
    rw [List.take_take]
    congr 1
    simp only [List.length_append, List.length_singleton]
    omega
  rw [h1, h]
  simp

/-- C3: pruning with the whitelist `{log, portable_config, tmp}` removes
exactly the non-whitelisted immediate children of the installation root
(directories with their whole subtree, files as single keys) and preserves
every key below a whitelisted child, every key outside the root, and the
contents of whitelisted children. -/
theorem c3_prune_exact (fs : FS) (gp : FPath)
    (hgp : lookupFS fs gp = some Node.dir ∨ gp = []) :
    (∀ n k, n ∈ updSkipDirs → pathUnder (gp ++ [n]) k →
        lookupFS (pruneDir fs gp) k = lookupFS fs k)
      ∧ (∀ k, ¬ pathUnder gp k → lookupFS (pruneDir fs gp) k = lookupFS fs k)
      ∧ (∀ n k, (n, Node.dir) ∈ childrenOf fs gp → n ∉ updSkipDirs →
          pathUnder (gp ++ [n]) k → lookupFS (pruneDir fs gp) k = none)
      ∧ (∀ n c, (n, Node.file c) ∈ childrenOf fs gp → n ∉ updSkipDirs →
          lookupFS (pruneDir fs gp) (gp ++ [n]) = none) := by
  have hprune : ∀ k, lookupFS (pruneDir fs gp) k
      = if ∀ c ∈ childrenOf fs gp, keepFor gp c k = true then lookupFS fs k else none := by
    intro k
    unfold pruneDir
    rw [if_pos hgp, prune_foldl_lookup]
  refine ⟨?_, ?_, ?_, ?_⟩
  · intro n k hn hk
    rw [hprune, if_pos]
    intro c _
    by_cases hskip : c.1 ∈ updSkipDirs
    · simp [keepFor, hskip]
    · have hne : ¬ pathUnder (gp ++ [c.1]) k := by
        intro hc
        exact hskip (pathUnder_child_unique hc hk ▸ hn)
      have hne2 : k ≠ gp ++ [c.1] := by
        intro he
        apply hne
        rw [he]
        unfold pathUnder
        exact List.take_length _
      rcases c with ⟨n', v'⟩
      cases v' <;> simp [keepFor, hskip, hne, hne2]
  · intro k hk
    rw [hprune, if_pos]
    intro c _
    by_cases hskip : c.1 ∈ updSkipDirs
    · simp [keepFor, hskip]
    · have hne : ¬ pathUnder (gp ++ [c.1]) k := fun hc => hk (pathUnder_of_child hc)
      have hne2 : k ≠ gp ++ [c.1] := by
        intro he
        apply hne
        rw [he]
        unfold pathUnder
        exact List.take_length _
      rcases c with ⟨n', v'⟩
      cases v' <;> simp [keepFor, hskip, hne, hne2]
  · intro n k hmem hn hk
    rw [hprune, if_neg]
    intro hall
    have := hall (n, Node.dir) hmem
    simp [keepFor, hn, hk] at this
  · intro n c hmem hn
    rw [hprune, if_neg]
    intro hall
    have h2 := hall (n, Node.file c) hmem
    simp [keepFor, hn] at h2

/-- C3 witness: pruning the concrete root `C:/app` keeps `log` (and its
contents), `portable_config` and `tmp`, removes the `oldstuff` directory
with its contents, and removes the loose file `note.txt`. -/
theorem c3_witness :
    lookupFS (pruneDir c3FS ["C:", "app"]) ["C:", "app", "log", "a.txt"]
        = lookupFS c3FS ["C:", "app", "log", "a.txt"]
      ∧ lookupFS (pruneDir c3FS ["C:", "app"]) ["C:", "app", "portable_config"]
        = lookupFS c3FS ["C:", "app", "portable_config"]
      ∧ lookupFS (pruneDir c3FS ["C:", "app"]) ["C:"] = lookupFS c3FS ["C:"]
      ∧ lookupFS (pruneDir c3FS ["C:", "app"]) ["C:", "app", "oldstuff", "x.bin"] = none
      ∧ lookupFS (pruneDir c3FS ["C:", "app"]) ["C:", "app", "note.txt"] = none :=
  ⟨(c3_prune_exact c3FS ["C:", "app"] (by decide)).1 "log" _ (by decide) (by decide),
   (c3_prune_exact c3FS ["C:", "app"] (by decide)).1 "portable_config" _ (by decide) (by decide),
   (c3_prune_exact c3FS ["C:", "app"] (by decide)).2.1 ["C:"] (by decide),
   (c3_prune_exact c3FS ["C:", "app"] (by decide)).2.2.1 "oldstuff" _ (by decide) (by decide)
     (by decide),
   (c3_prune_exact c3FS ["C:", "app"] (by decide)).2.2.2 "note.txt" [3] (by decide) (by decide)⟩

/-! ## Extraction: supporting lemmas for C7 -/

/-- Lookup after a `setFS`. -/
theorem lookupFS_set (fs : FS) (p : FPath) (v : Node) (q : FPath) :
    lookupFS (setFS fs p v) q = if p = q then some v else lookupFS fs q := rfl

/-- A nonempty list is strictly shortened by `dropLast`. -/
theorem dropLast_ne_self {t : FPath} (h : t ≠ []) : t.dropLast ≠ t := by
  intro he
  have hl := congrArg List.length he
  rw [List.length_dropLast] at hl
  have : 0 < t.length := List.length_pos.mpr h
  omega

/-- A successful `createDirAllAux` only turns absent paths into directories. -/
theorem cda_change (rest : List String) :
    ∀ fs done fs', createDirAllAux fs done rest = (none, fs') →
      ∀ q, lookupFS fs' q = lookupFS fs q
        ∨ (lookupFS fs q = none ∧ lookupFS fs' q = some Node.dir) := by
  induction rest with
  | nil =>
    intro fs done fs' h q
    simp only [createDirAllAux] at h
    injection h with _ h2
    subst h2
    exact Or.inl rfl
  | cons c cs ih =>
    intro fs done fs' h q
    rw [createDirAllAux] at h
    cases hl : lookupFS fs (done ++ [c]) with
    | none =>
      rw [hl] at h
      dsimp at h
      have hch := ih _ (done ++ [c]) fs' h q
      by_cases hq : done ++ [c] = q
      · subst hq
        rcases hch with h1 | h2
        · rw [lookupFS_set, if_pos rfl] at h1
          exact Or.inr ⟨hl, h1⟩
        · rw [lookupFS_set, if_pos rfl] at h2
          exact absurd h2.1 (by simp)
      · rw [lookupFS_set, if_neg hq] at hch
        exact hch
    | some nd =>
      cases nd with
      | dir =>
        rw [hl] at h
        dsimp at h
        exact ih fs (done ++ [c]) fs' h q
      | file b =>
        rw [hl] at h
        simp at h

/-- A successful `createDirAllAux` keeps every existing binding. -/
theorem cda_keep_value (rest : List String) {fs : FS} {done : FPath} {fs' : FS}
    (h : createDirAllAux fs done rest = (none, fs')) {q : FPath} {v : Node}
    (hv : lookupFS fs q = some v) : lookupFS fs' q = some v := by
  rcases cda_change rest fs done fs' h q with h1 | h2
  · rw [h1, hv]
  · rw [hv] at h2
    exact absurd h2.1 (by simp)

/-- After a successful `createDirAllAux fs done rest`, every nonempty
initial segment of `rest` (appended to `done`) is a directory. -/
theorem cda_post (rest : List String) :
    ∀ fs done fs', createDirAllAux fs done rest = (none, fs') →
      ∀ i, i < rest.length → lookupFS fs' (done ++ rest.take (i + 1)) = some Node.dir := by
  induction rest with
  | nil =>
    intro fs done fs' _ i hi
    simp at hi
  | cons c cs ih =>
    intro fs done fs' h i hi
    rw [createDirAllAux] at h
    cases hl : lookupFS fs (done ++ [c]) with
    | none =>
      rw [hl] at h
      dsimp at h
      cases i with
      | zero =>
        simp only [List.take_succ_cons, List.take_zero]
        exact cda_keep_value cs h (by rw [lookupFS_set, if_pos rfl])
      | succ j =>
        rw [List.take_succ_cons, List.append_cons]
        exact ih _ (done ++ [c]) fs' h j (by simpa using hi)
    | some nd =>
      cases nd with
      | dir =>
        rw [hl] at h
        dsimp at h
        cases i with
        | zero =>
          simp only [List.take_succ_cons, List.take_zero]
          exact cda_keep_value cs h hl
        | succ j =>
          rw [List.take_succ_cons, List.append_cons]
          exact ih fs (done ++ [c]) fs' h j (by simpa using hi)
      | file b =>
        rw [hl] at h
        simp at h

/-- `createDirAllAux` is the identity when every directory it would create
already exists. -/
theorem cda_noop (rest : List String) :
    ∀ fs done,
      (∀ i, i < rest.length → lookupFS fs (done ++ rest.take (i + 1)) = some Node.dir) →
      createDirAllAux fs done rest = (none, fs) := by
  induction rest with
  | nil => intro fs done _; rfl
  | cons c cs ih =>
    intro fs done hdirs
    have h0 : lookupFS fs (done ++ [c]) = some Node.dir := by
      have := hdirs 0 (by simp)
      simpa using this
    rw [createDirAllAux, h0]
    apply ih
    intro i hi
    have := hdirs (i + 1) (by simpa using Nat.succ_lt_succ hi)
    rw [List.take_succ_cons, List.append_cons] at this
    exact this

/-- Success conditions and result of `fileCreate`. -/
theorem fileCreate_ok {fs : FS} {p : FPath} {content : List Nat} {fs' : FS}
    (h : fileCreate fs p content = (none, fs')) :
    lookupFS fs p ≠ some Node.dir ∧ p ≠ []
      ∧ (p.dropLast = [] ∨ lookupFS fs p.dropLast = some Node.dir)
      ∧ fs' = setFS fs p (Node.file content) := by
  unfold fileCreate at h
  split_ifs at h with h1 h2 h3
  · simp at h
  · simp at h
  · injection h with _ h4
    subst h4
    exact ⟨h1, h2, h3, rfl⟩
  · simp at h

/-- `fileCreate` succeeds under its three conditions. -/
theorem fileCreate_eq {fs : FS} {p : FPath} (content : List Nat)
    (h1 : lookupFS fs p ≠ some Node.dir) (h2 : p ≠ [])
    (h3 : p.dropLast = [] ∨ lookupFS fs p.dropLast = some Node.dir) :
    fileCreate fs p content = (none, setFS fs p (Node.file content)) := by
  unfold fileCreate
  rw [if_neg h1, if_neg h2, if_pos h3]

/-- A successful entry extraction only overwrites its own file target with
the entry's content, turns absent paths into directories, or leaves paths
unchanged; its file target was not a directory before. -/
theorem entry_change {root : FPath} {fs : FS} {e : ZipEntry} {fs' : FS}
    (h : extractEntry root fs e = (none, fs')) :
    ∀ q, lookupFS fs' q = lookupFS fs q
      ∨ (lookupFS fs q = none ∧ lookupFS fs' q = some Node.dir)
      ∨ (endsSlash e.name = false ∧ q = entryTarget root e
          ∧ lookupFS fs' q = some (Node.file e.content)
          ∧ lookupFS fs q ≠ some Node.dir) := by
  intro q
  unfold extractEntry at h
  by_cases hs : endsSlash e.name = true
  · rw [if_pos hs] at h
    unfold createDirAll at h
    rcases cda_change (entryTarget root e) fs [] fs' h q with h1 | h2
    · exact Or.inl h1
    · exact Or.inr (Or.inl h2)
  · have hs' : endsSlash e.name = false := by simpa using hs
    rw [if_neg hs] at h
    by_cases hpar : entryPar root e = [] ∨ (lookupFS fs (entryPar root e)).isSome = true
    · rw [if_pos hpar] at h
      obtain ⟨h1, h2, h3, rfl⟩ := fileCreate_ok h
      by_cases hq : entryTarget root e = q
      · subst hq
        refine Or.inr (Or.inr ⟨hs', rfl, ?_, h1⟩)
        rw [lookupFS_set, if_pos rfl]
      · rw [lookupFS_set, if_neg hq]
        exact Or.inl rfl
    · rw [if_neg hpar] at h
      rcases hres : createDirAll fs (entryPar root e) with ⟨o, fs1⟩
      rw [hres] at h
      cases o with
      | some er => simp at h
      | none =>
        dsimp at h
        obtain ⟨h1, h2, h3, rfl⟩ := fileCreate_ok h
        unfold createDirAll at hres
        by_cases hq : entryTarget root e = q
        · subst hq
          refine Or.inr (Or.inr ⟨hs', rfl, ?_, ?_⟩)
          · rw [lookupFS_set, if_pos rfl]
          · intro hdir
            exact h1 (cda_keep_value _ hres hdir)
        · rw [lookupFS_set, if_neg hq]
          rcases cda_change _ fs [] fs1 hres q with hA | hB
          · exact Or.inl hA
          · exact Or.inr (Or.inl hB)

/-- A successful entry extraction keeps existing directories. -/
theorem entry_keep_dir {root : FPath} {fs : FS} {e : ZipEntry} {fs' : FS}
    (h : extractEntry root fs e = (none, fs')) {q : FPath}
    (hd : lookupFS fs q = some Node.dir) : lookupFS fs' q = some Node.dir := by
  rcases entry_change h q with h1 | h2 | h3
  · rw [h1, hd]
  · rw [hd] at h2
    exact absurd h2.1 (by simp)
  · exact absurd hd h3.2.2.2

/-- A successful entry extraction keeps files as files. -/
theorem entry_keep_file {root : FPath} {fs : FS} {e : ZipEntry} {fs' : FS}
    (h : extractEntry root fs e = (none, fs')) {q : FPath}
    (hf : ∃ c, lookupFS fs q = some (Node.file c)) :
    ∃ c, lookupFS fs' q = some (Node.file c) := by
  obtain ⟨c, hc⟩ := hf
  rcases entry_change h q with h1 | h2 | h3
  · exact ⟨c, by rw [h1, hc]⟩
  · rw [hc] at h2
    exact absurd h2.1 (by simp)
  · exact ⟨e.content, h3.2.2.1⟩

/-- A successful entry extraction never removes a binding. -/
theorem entry_keep_some {root : FPath} {fs : FS} {e : ZipEntry} {fs' : FS}
    (h : extractEntry root fs e = (none, fs')) {q : FPath}
    (hsome : (lookupFS fs q).isSome = true) : (lookupFS fs' q).isSome = true := by
  rcases entry_change h q with h1 | h2 | h3
  · rw [h1]
    exact hsome
  · rw [h2.2]
    rfl
  · rw [h3.2.2.1]
    rfl

/-- A successful entry extraction keeps the value of every binding it does
not write (anywhere but a file entry's own target). -/
theorem entry_keep_value {root : FPath} {fs : FS} {e : ZipEntry} {fs' : FS}
    (h : extractEntry root fs e = (none, fs')) {q : FPath} {v : Node}
    (hnw : endsSlash e.name = true ∨ entryTarget root e ≠ q)
    (hv : lookupFS fs q = some v) : lookupFS fs' q = some v := by
  rcases entry_change h q with h1 | h2 | h3
  · rw [h1, hv]
  · rw [hv] at h2
    exact absurd h2.1 (by simp)
  · rcases hnw with hb | hne
    · rw [h3.1] at hb
      exact absurd hb (by simp)
    · exact absurd h3.2.1.symm hne

/-- After a successful file-entry extraction the target holds exactly the
entry's content. -/
theorem entry_post_content {root : FPath} {fs : FS} {e : ZipEntry} {fs' : FS}
    (h : extractEntry root fs e = (none, fs')) (hs : endsSlash e.name = false) :
    lookupFS fs' (entryTarget root e) = some (Node.file e.content) := by
  unfold extractEntry at h
  rw [if_neg (by simp [hs])] at h
  by_cases hpar : entryPar root e = [] ∨ (lookupFS fs (entryPar root e)).isSome = true
  · rw [if_pos hpar] at h
    obtain ⟨-, -, -, rfl⟩ := fileCreate_ok h
    rw [lookupFS_set, if_pos rfl]
  · rw [if_neg hpar] at h
    rcases hres : createDirAll fs (entryPar root e) with ⟨o, fs1⟩
    rw [hres] at h
    cases o with
    | some er => simp at h
    | none =>
      dsimp at h
      obtain ⟨-, -, -, rfl⟩ := fileCreate_ok h
      rw [lookupFS_set, if_pos rfl]

/-- A successful entry extraction leaves the state ready for a re-run of the
same entry. -/
theorem entry_post_ready {root : FPath} {fs : FS} {e : ZipEntry} {fs' : FS}
    (h : extractEntry root fs e = (none, fs')) : entryReady root fs' e := by
  unfold entryReady
  by_cases hs : endsSlash e.name = true
  · rw [if_pos hs]
    unfold extractEntry at h
    rw [if_pos hs] at h
    unfold createDirAll at h
    intro i hi
    have := cda_post (entryTarget root e) fs [] fs' h i hi
    simpa using this
  · have hs' : endsSlash e.name = false := by simpa using hs
    rw [if_neg hs]
    unfold extractEntry at h
    rw [if_neg hs] at h
    by_cases hpar : entryPar root e = [] ∨ (lookupFS fs (entryPar root e)).isSome = true
    · rw [if_pos hpar] at h
      obtain ⟨h1, h2, h3, rfl⟩ := fileCreate_ok h
      refine ⟨?_, ⟨e.content, by rw [lookupFS_set, if_pos rfl]⟩, h2, ?_⟩
      · rcases hpar with hp | hp
        · exact Or.inl hp
        · right
          rw [lookupFS_set]
          by_cases hq : entryTarget root e = entryPar root e
          · rw [if_pos hq]
            rfl
          · rw [if_neg hq]
            exact hp
      · rcases h3 with h3 | h3
        · exact Or.inl h3
        · right
          rw [lookupFS_set, if_neg (fun he => dropLast_ne_self h2 he.symm)]
          exact h3
    · rw [if_neg hpar] at h
      rcases hres : createDirAll fs (entryPar root e) with ⟨o, fs1⟩
      rw [hres] at h
      cases o with
      | some er => simp at h
      | none =>
        dsimp at h
        obtain ⟨h1, h2, h3, rfl⟩ := fileCreate_ok h
        unfold createDirAll at hres
        push_neg at hpar
        obtain ⟨hparne, -⟩ := hpar
        have hlen : 0 < (entryPar root e).length := List.length_pos.mpr hparne
        have hpardir : lookupFS fs1 (entryPar root e) = some Node.dir := by
          have hpost := cda_post (entryPar root e) fs [] fs1 hres
            ((entryPar root e).length - 1) (by omega)
          have heq : (entryPar root e).length - 1 + 1 = (entryPar root e).length := by omega
          rw [heq, List.take_length] at hpost
          simpa using hpost
        refine ⟨Or.inr ?_, ⟨e.content, by rw [lookupFS_set, if_pos rfl]⟩, h2, ?_⟩
        · rw [lookupFS_set]
          by_cases hq : entryTarget root e = entryPar root e
          · rw [if_pos hq]
            rfl
          · rw [if_neg hq, hpardir]
            rfl
        · rcases h3 with h3 | h3
          · exact Or.inl h3
          · right
            rw [lookupFS_set, if_neg (fun he => dropLast_ne_self h2 he.symm)]
            exact h3

/-- Readiness of any entry survives a successful extraction of any entry. -/
theorem entry_keep_ready {root : FPath} {fs : FS} {e' : ZipEntry} {fs' : FS} {e : ZipEntry}
    (h : extractEntry root fs e' = (none, fs'))
    (hready : entryReady root fs e) : entryReady root fs' e := by
  unfold entryReady at hready ⊢
  by_cases hs : endsSlash e.name = true
  · rw [if_pos hs] at hready ⊢
    intro i hi
    exact entry_keep_dir h (hready i hi)
  · rw [if_neg hs] at hready ⊢
    obtain ⟨hpar, hfile, hne, hdl⟩ := hready
    refine ⟨?_, entry_keep_file h hfile, hne, ?_⟩
    · rcases hpar with hp | hp
      · exact Or.inl hp
      · exact Or.inr (entry_keep_some h hp)
    · rcases hdl with hp | hp
      · exact Or.inl hp
      · exact Or.inr (entry_keep_dir h hp)

/-- Re-running a directory entry on a ready state changes nothing. -/
theorem entry_replay_dir {root : FPath} {h : FS} {e : ZipEntry}
    (hs : endsSlash e.name = true) (hready : entryReady root h e) :
    extractEntry root h e = (none, h) := by
  unfold entryReady at hready
  rw [if_pos hs] at hready
  unfold extractEntry
  rw [if_pos hs]
  unfold createDirAll
  apply cda_noop
  intro i hi
  simpa using hready i hi

/-- Re-running a file entry on a ready state just overwrites its target. -/
theorem entry_replay_file {root : FPath} {h : FS} {e : ZipEntry}
    (hs : endsSlash e.name = false) (hready : entryReady root h e) :
    extractEntry root h e = (none, setFS h (entryTarget root e) (Node.file e.content)) := by
  unfold entryReady at hready
  rw [if_neg (by simp [hs])] at hready
  obtain ⟨hpar, ⟨c, hc⟩, hne, hdl⟩ := hready
  unfold extractEntry
  rw [if_neg (by simp [hs]), if_pos hpar]
  exact fileCreate_eq e.content (by rw [hc]; simp) hne hdl

/-- The replay invariant keeps directories. -/
theorem inv_keep_dir {root : FPath} {g : FS} {es : List ZipEntry} {h : FS}
    (hinv : replayInv root g es h) {q : FPath}
    (hd : lookupFS g q = some Node.dir) : lookupFS h q = some Node.dir := by
  rcases hinv q with h1 | h2
  · rw [h1, hd]
  · obtain ⟨c, hcg⟩ := h2.2.2
    rw [hd] at hcg
    exact absurd hcg (by simp)

/-- The replay invariant keeps files as files. -/
theorem inv_keep_file {root : FPath} {g : FS} {es : List ZipEntry} {h : FS}
    (hinv : replayInv root g es h) {q : FPath}
    (hf : ∃ c, lookupFS g q = some (Node.file c)) :
    ∃ c, lookupFS h q = some (Node.file c) := by
  rcases hinv q with h1 | h2
  · obtain ⟨c, hc⟩ := hf
    exact ⟨c, by rw [h1, hc]⟩
  · exact h2.2.1

/-- The replay invariant keeps bindings present. -/
theorem inv_keep_some {root : FPath} {g : FS} {es : List ZipEntry} {h : FS}
    (hinv : replayInv root g es h) {q : FPath}
    (hsome : (lookupFS g q).isSome = true) : (lookupFS h q).isSome = true := by
  rcases hinv q with h1 | h2
  · rw [h1]
    exact hsome
  · obtain ⟨c, hc⟩ := h2.2.1
    rw [hc]
    rfl

/-- Readiness transports along the replay invariant from the first pass's
final state to the replay state. -/
theorem ready_transport {root : FPath} {g : FS} {es : List ZipEntry} {h : FS} {e : ZipEntry}
    (hready : entryReady root g e) (hinv : replayInv root g es h) :
    entryReady root h e := by
  unfold entryReady at hready ⊢
  by_cases hs : endsSlash e.name = true
  · rw [if_pos hs] at hready ⊢
    intro i hi
    exact inv_keep_dir hinv (hready i hi)
  · rw [if_neg hs] at hready ⊢
    obtain ⟨hpar, hfile, hne, hdl⟩ := hready
    refine ⟨?_, inv_keep_file hinv hfile, hne, ?_⟩
    · rcases hpar with hp | hp
      · exact Or.inl hp
      · exact Or.inr (inv_keep_some hinv hp)
    · rcases hdl with hp | hp
      · exact Or.inl hp
      · exact Or.inr (inv_keep_dir hinv hp)

/-- Readiness of any entry survives a successful extraction pass. -/
theorem extractAll_keep_ready (es : List ZipEntry) {root : FPath} :
    ∀ fs g e, extractAll root fs es = (none, g) →
      entryReady root fs e → entryReady root g e := by
  induction es with
  | nil =>
    intro fs g e h hr
    injection h with _ h2
    subst h2
    exact hr
  | cons e' es' ih =>
    intro fs g e h hr
    rw [extractAll] at h
    rcases hres : extractEntry root fs e' with ⟨o, fs1⟩
    rw [hres] at h
    cases o with
    | some er => simp at h
    | none =>
      dsimp at h
      exact ih fs1 g e h (entry_keep_ready hres hr)

/-- A binding no remaining entry writes keeps its value through a
successful extraction pass. -/
theorem extractAll_keep_value (es : List ZipEntry) {root : FPath} :
    ∀ fs g q v, extractAll root fs es = (none, g) →
      lookupFS fs q = some v →
      (∀ e ∈ es, endsSlash e.name = true ∨ entryTarget root e ≠ q) →
      lookupFS g q = some v := by
  induction es with
  | nil =>
    intro fs g q v h hv _
    injection h with _ h2
    subst h2
    exact hv
  | cons e' es' ih =>
    intro fs g q v h hv hnw
    rw [extractAll] at h
    rcases hres : extractEntry root fs e' with ⟨o, fs1⟩
    rw [hres] at h
    cases o with
    | some er => simp at h
    | none =>
      dsimp at h
      exact ih fs1 g q v h
        (entry_keep_value hres (hnw e' (List.mem_cons_self e' es')) hv)
        (fun e he => hnw e (List.mem_cons_of_mem e' he))

/-- Bindings survive a successful extraction pass. -/
theorem extractAll_keep_some (es : List ZipEntry) {root : FPath} :
    ∀ fs g q, extractAll root fs es = (none, g) →
      (lookupFS fs q).isSome = true → (lookupFS g q).isSome = true := by
  induction es with
  | nil =>
    intro fs g q h hv
    injection h with _ h2
    subst h2
    exact hv
  | cons e' es' ih =>
    intro fs g q h hv
    rw [extractAll] at h
    rcases hres : extractEntry root fs e' with ⟨o, fs1⟩
    rw [hres] at h
    cases o with
    | some er => simp at h
    | none =>
      dsimp at h
      exact ih fs1 g q h (entry_keep_some hres hv)

/-- Replaying a successful extraction pass from any state satisfying the
replay invariant succeeds and ends extensionally equal to the first pass's
final state. -/
theorem extract_replay (es : List ZipEntry) {root : FPath} :
    ∀ fs g, extractAll root fs es = (none, g) →
      ∀ h, replayInv root g es h →
        ∃ h', extractAll root h es = (none, h') ∧ ∀ q, lookupFS h' q = lookupFS g q := by
  induction es with
  | nil =>
    intro fs g hpass h hinv
    refine ⟨h, rfl, fun q => ?_⟩
    rcases hinv q with h1 | h2
    · exact h1
    · obtain ⟨e, he, -⟩ := h2.1
      exact absurd he (List.not_mem_nil e)
  | cons e es' ih =>
    intro fs g hpass h hinv
    rw [extractAll] at hpass
    rcases hres : extractEntry root fs e with ⟨o, f1⟩
    rw [hres] at hpass
    cases o with
    | some er => simp at hpass
    | none =>
      dsimp at hpass
      have hready_g : entryReady root g e :=
        extractAll_keep_ready es' f1 g e hpass (entry_post_ready hres)
      have hready_h : entryReady root h e := ready_transport hready_g hinv
      by_cases hs : endsSlash e.name = true
      · have hstep : extractEntry root h e = (none, h) := entry_replay_dir hs hready_h
        have hinv' : replayInv root g es' h := by
          intro q
          rcases hinv q with h1 | h2
          · exact Or.inl h1
          · obtain ⟨⟨e'', he'', hse'', hte''⟩, hf⟩ := h2
            rcases List.mem_cons.mp he'' with rfl | hmem
            · rw [hs] at hse''
              exact absurd hse'' (by simp)
            · exact Or.inr ⟨⟨e'', hmem, hse'', hte''⟩, hf⟩
        obtain ⟨h', hall, heq⟩ := ih f1 g hpass h hinv'
        refine ⟨h', ?_, heq⟩
        rw [extractAll, hstep]
        exact hall
      · have hs' : endsSlash e.name = false := by simpa using hs
        have hstep : extractEntry root h e
            = (none, setFS h (entryTarget root e) (Node.file e.content)) :=
          entry_replay_file hs' hready_h
        have hgfile : ∃ c, lookupFS g (entryTarget root e) = some (Node.file c) := by
          have hr := hready_g
          unfold entryReady at hr
          rw [if_neg (by simp [hs'])] at hr
          exact hr.2.1
        have hinv' : replayInv root g es'
            (setFS h (entryTarget root e) (Node.file e.content)) := by
          intro q
          by_cases hq : entryTarget root e = q
          · subst hq
            by_cases hlater : ∃ e' ∈ es', endsSlash e'.name = false
                ∧ entryTarget root e' = entryTarget root e
            · right
              refine ⟨hlater, ⟨e.content, ?_⟩, hgfile⟩
              rw [lookupFS_set, if_pos rfl]
            · left
              have hgval : lookupFS g (entryTarget root e)
                  = some (Node.file e.content) := by
                apply extractAll_keep_value es' f1 g _ _ hpass
                  (entry_post_content hres hs')
                intro e' he'
                by_cases hse' : endsSlash e'.name = true
                · exact Or.inl hse'
                · right
                  intro hte'
                  exact hlater ⟨e', he', by simpa using hse', hte'⟩
              rw [lookupFS_set, if_pos rfl, hgval]
          · rw [lookupFS_set, if_neg hq]
            rcases hinv q with h1 | h2
            · exact Or.inl h1
            · obtain ⟨⟨e'', he'', hse'', hte''⟩, hf⟩ := h2
              rcases List.mem_cons.mp he'' with rfl | hmem
              · exact absurd hte'' hq
              · exact Or.inr ⟨⟨e'', hmem, hse'', hte''⟩, hf⟩
        obtain ⟨h', hall, heq⟩ := ih f1 g hpass _ hinv'
        refine ⟨h', ?_, heq⟩
        rw [extractAll, hstep]
        exact hall

/-- C7: for every valid archive (one whose extraction with prune=false
succeeds), running `unzip_file_to_parent_dir` a second time over the result
succeeds again and yields a filesystem with identical contents at every
path — the second extraction overwrites every extracted file with the same
bytes. -/
theorem c7_extract_idempotent (zp : String) (zd : Option (List ZipEntry)) (fs fs₁ : FS)
    (h : unzip_file_to_parent_dir zp false zd fs = (none, fs₁)) :
    ∃ fs₂, unzip_file_to_parent_dir zp false zd fs₁ = (none, fs₂)
      ∧ ∀ q, lookupFS fs₂ q = lookupFS fs₁ q := by
  unfold unzip_file_to_parent_dir at h
  by_cases hval : ¬ pathExistsB fs zp ∨ (extOf zp).getD "" ≠ "zip"
  · rw [if_pos hval] at h
    simp at h
  · rw [if_neg hval] at h
    push_neg at hval
    obtain ⟨hex, hext⟩ := hval
    cases hgp : grandParentOf zp with
    | none =>
      rw [hgp] at h
      simp at h
    | some gp =>
      rw [hgp] at h
      dsimp at h
      cases zd with
      | none => simp at h
      | some entries =>
        dsimp at h
        have hinv : replayInv gp fs₁ entries fs₁ := fun q => Or.inl rfl
        obtain ⟨fs₂, hall, heq⟩ := extract_replay entries fs fs₁ h fs₁ hinv
        refine ⟨fs₂, ?_, heq⟩
        have hex1 : pathExistsB fs₁ zp = true :=
          extractAll_keep_some entries fs fs₁ _ h hex
        have hc : ¬ (¬ pathExistsB fs₁ zp ∨ (extOf zp).getD "" ≠ "zip") := by
          push_neg
          exact ⟨hex1, hext⟩
        unfold unzip_file_to_parent_dir
        rw [if_neg hc, hgp]
        exact hall

/-- C7 witness: extracting the concrete archive `c7Zip` into `baseFS` and
re-extracting over the result. -/
theorem c7_witness :
    ∃ fs₂, unzip_file_to_parent_dir "C:/app/update/pkg.zip" false c7Zip
          ((unzip_file_to_parent_dir "C:/app/update/pkg.zip" false c7Zip baseFS).2)
        = (none, fs₂)
      ∧ ∀ q, lookupFS fs₂ q
          = lookupFS ((unzip_file_to_parent_dir "C:/app/update/pkg.zip" false c7Zip baseFS).2) q :=
  c7_extract_idempotent "C:/app/update/pkg.zip" c7Zip baseFS
    ((unzip_file_to_parent_dir "C:/app/update/pkg.zip" false c7Zip baseFS).2) (by rfl)

end STHost
